import Mathlib

/-!
Verification of the officials dataset auditing scripts
(`analyze_officials.py`, `check_officials.py`, `deep_check_officials.py`,
`verify_matching_games.py`) against their specification.

The scripts are shallowly embedded: each Python loop becomes a recursive
Lean function over the loaded record list, Python dictionaries become
insertion-ordered association lists, Python `None` becomes `Option.none`,
and code that can raise an exception returns `Option.none` at top level.
String operations are modelled on the underlying character lists so that
all definitions evaluate inside the kernel.
-/

namespace Officials

/-! ## Data model

A `GameResult` mirrors one record of the loaded JSON `results` array.
For the fields read with absence-tolerant lookups the embedding separates
"key absent" (`none`) from "key present with JSON null" (`some none`):
 * `gameInfo = none` — key absent; `some none` — key present, value null;
   `some (some gi)` — key present holding a mapping `gi`.
 * `officials = none` — key absent; `some none` — key present, value null
   (not a dict, so `isinstance(officials, dict)` is false);
   `some (some m)` — key present holding the mapping `m`, whose values are
   the official names (`none` models a null name).
A Python dict is modelled as an association list in insertion order. -/

/-- A `gameInfo` mapping: key/value pairs, the interesting key being
`"opponent"`. -/
abbrev GameInfo := List (String × String)

/-- One record of the dataset's `results` array. -/
structure GameResult where
  domain : String
  success : Bool
  school : Option String
  gameInfo : Option (Option GameInfo)
  officials : Option (Option (List (String × Option String)))
deriving DecidableEq, Repr

/-- `gi.get('opponent')`: first value stored under `"opponent"`. -/
def giOpponent (gi : GameInfo) : Option String :=
  (gi.find? (fun p => p.1 = "opponent")).map (·.2)

/-! ## String helpers (kernel-computable models of the Python operations) -/

/-- Model of Python `str.lower()` (ASCII letters; the fixed word lists the
scripts compare against are all ASCII). -/
def pyLower (s : String) : String := ⟨s.data.map Char.toLower⟩

/-- Splitting a character list on whitespace runs, dropping empty pieces:
the behaviour of Python `str.split()` with no argument. -/
def splitWsChars : List Char → List Char → List (List Char)
  | [], acc => if acc.isEmpty then [] else [acc.reverse]
  | c :: cs, acc =>
    if c.isWhitespace then
      if acc.isEmpty then splitWsChars cs [] else acc.reverse :: splitWsChars cs []
    else splitWsChars cs (c :: acc)

/-- Model of Python `name.split()`. -/
def pySplit (s : String) : List String :=
  (splitWsChars s.data []).map (fun l => ⟨l⟩)

/-- Model of Python `needle in hay` on strings: contiguous substring. -/
def strContains (hay needle : String) : Bool :=
  decide (needle.data <:+: hay.data)

/-- Model of `re.search(r'\d+$', s)` being a match: the search succeeds
exactly when the last character is a decimal digit, or the string ends in
one newline and the character before it is a decimal digit (Python's `$`
also matches just before a single trailing `'\n'`). -/
def trailingDigitRe (s : String) : Bool :=
  let l := if s.data.getLast? = some '\n' then s.data.dropLast else s.data
  match l.getLast? with
  | some c => c.isDigit
  | none => false

/-! ## `analyze_officials.py` — the "no officials extracted" check -/

/-- One line of the "no officials" report: domain, school (with domain
fallback) and opponent (with `"Unknown"` fallback). -/
structure NoOffEntry where
  domain : String
  school : String
  opponent : String
deriving DecidableEq, Repr

/-- `result.get('gameInfo', {}).get('opponent', 'Unknown')`: `none` models
the `AttributeError` raised when `gameInfo` is present but null. -/
def opponentOfNoOff (r : GameResult) : Option String :=
  match r.gameInfo with
  | none => some "Unknown"
  | some none => none
  | some (some gi) => some ((giOpponent gi).getD "Unknown")

/-- The loop of `analyze_officials.py`: for each successful record take
`officials = result.get('officials', {})`; when it is a dict whose values
are all null (or it is empty) append a report line.  `none` models the run
dying with an uncaught exception. -/
def noOfficials : List GameResult → Option (List NoOffEntry)
  | [] => some []
  | r :: rs =>
    if r.success then
      match r.officials.getD (some []) with
      | none => noOfficials rs
      | some m =>
        if m.countP (fun p => p.2.isSome) = 0 then
          match opponentOfNoOff r with
          | none => none
          | some opp =>
            (noOfficials rs).map (fun l => ⟨r.domain, r.school.getD r.domain, opp⟩ :: l)
        else noOfficials rs
    else noOfficials rs

/-- The record-selection predicate actually implemented by
`analyze_officials.py`: successful, and `result.get('officials', {})` is a
dict with no non-null value.  A present-but-null `officials` fails the
`isinstance` test and never qualifies. -/
def codeQualifies (r : GameResult) : Bool :=
  r.success &&
    (match r.officials.getD (some []) with
     | none => false
     | some m => m.countP (fun p => p.2.isSome) = 0)

/-- The report line built for a qualifying record. -/
def codeEntry (r : GameResult) : NoOffEntry :=
  ⟨r.domain, r.school.getD r.domain, (opponentOfNoOff r).getD "Unknown"⟩

/-- The record-selection predicate as the specification words it: the
officials mapping *defaults to empty when the field is absent or null* and
qualifies when empty or all-null. -/
def specQualifies (r : GameResult) : Bool :=
  r.success &&
    (match r.officials with
     | some (some m) => m.countP (fun p => p.2.isSome) = 0
     | _ => true)

/-- The "no officials" output as the specification describes it. -/
def specNoOfficials (ds : List GameResult) : List NoOffEntry :=
  (ds.filter specQualifies).map codeEntry

/-! ## `check_officials.py` — flattening and the suspicious-name check

The flattening guard is `result['success'] and result.get('officials')`,
then `isinstance(officials, dict)`, then `if name:` on each value — so a
record contributes only when `officials` is a present, non-null, non-empty
dict, and a value only when it is a non-null, non-empty string. -/

/-- The `(position, name)` pairs a single record contributes: values that
are truthy strings of a truthy `officials` dict of a successful record. -/
def entryList (r : GameResult) : List (String × String × String) :=
  if r.success then
    match r.officials with
    | some (some m) =>
      if m.isEmpty then []
      else m.filterMap (fun p =>
        match p.2 with
        | some n => if n = "" then none else some (r.domain, p.1, n)
        | none => none)
    | _ => []
  else []

/-- The flattened `(domain, position, name)` entry list of the dataset. -/
def flatEntries (ds : List GameResult) : List (String × String × String) :=
  ds.flatMap entryList

/-- `all_officials`: every extracted name, flattened in input order. -/
def allOfficialNames (ds : List GameResult) : List String :=
  (flatEntries ds).map (fun t => t.2.2)

/-- The reason attached to a suspicious-name flag. -/
inductive Reason
  | placeholder
  | repetitive
  | numbers
deriving DecidableEq, Repr

/-- One suspicious-name flag. -/
structure Flag where
  school : String
  position : String
  name : String
  reason : Reason
deriving DecidableEq, Repr

/-- `common_placeholder_names`. -/
def commonPlaceholderNames : List String :=
  ["john doe", "jane doe", "jane smith", "john smith", "test name", "example name"]

/-- `name.lower() in common_placeholder_names`. -/
def isPlaceholder (n : String) : Bool :=
  commonPlaceholderNames.contains (pyLower n)

/-- `parts = name.split(); len(parts) == 2 and parts[0] == parts[1]`. -/
def isRepetitive (n : String) : Bool :=
  match pySplit n with
  | [a, b] => a = b
  | _ => false

/-- The three flags independently produced for one truthy name. -/
def entryFlags (d pos n : String) : List Flag :=
  (if isPlaceholder n then [⟨d, pos, n, .placeholder⟩] else []) ++
  (if isRepetitive n then [⟨d, pos, n, .repetitive⟩] else []) ++
  (if trailingDigitRe n then [⟨d, pos, n, .numbers⟩] else [])

/-- The inner loop of the suspicious-name check over one officials dict. -/
def flagsOfOfficials (d : String) : List (String × Option String) → List Flag
  | [] => []
  | (pos, nm) :: rest =>
    (match nm with
     | some n => if n = "" then [] else entryFlags d pos n
     | none => []) ++ flagsOfOfficials d rest

/-- `suspicious_names`: the outer loop of `check_officials.py`, with the
same flattening guard as `all_officials`. -/
def suspiciousNames : List GameResult → List Flag
  | [] => []
  | r :: rs =>
    (if r.success then
       match r.officials with
       | some (some m) => if m.isEmpty then [] else flagsOfOfficials r.domain m
       | _ => []
     else []) ++ suspiciousNames rs

/-- The trailing-digit predicate exactly as the specification words it:
the name "ends with one or more decimal digits". -/
def specTrailingDigits (s : String) : Bool :=
  match s.data.getLast? with
  | some c => c.isDigit
  | none => false

/-! ### Name statistics (`Counter` model)

`collections.Counter` iterates keys in first-seen order and
`most_common` sorts them by count, descending, stably. -/

/-- Helper for `dedupFirst`: keeps elements not yet seen. -/
def dedupFirstAux (seen : List String) : List String → List String
  | [] => []
  | x :: xs =>
    if seen.contains x then dedupFirstAux seen xs
    else x :: dedupFirstAux (x :: seen) xs

/-- First occurrence of each element, in first-seen order (the key order
of a Python dict / `Counter` built by successive updates). -/
def dedupFirst (l : List String) : List String := dedupFirstAux [] l

/-- The `Counter` of a name list: each distinct name, in first-seen order,
with its multiplicity. -/
def countsList (l : List String) : List (String × Nat) :=
  (dedupFirst l).map (fun n => (n, l.count n))

/-- Stable insertion into a count-descending list: the new pair goes after
every strictly larger count and before equal ones (the element being
inserted always precedes, in the original list, everything already
sorted). -/
def insertDesc (x : String × Nat) : List (String × Nat) → List (String × Nat)
  | [] => [x]
  | y :: ys => if y.2 > x.2 then y :: insertDesc x ys else x :: y :: ys

/-- Stable sort by count, descending: the order `most_common` returns. -/
def sortDesc : List (String × Nat) → List (String × Nat)
  | [] => []
  | x :: xs => insertDesc x (sortDesc xs)

/-- `len(all_officials)`. -/
def nameTotal (ds : List GameResult) : Nat := (allOfficialNames ds).length

/-- `len(set(all_officials))`. -/
def nameDistinct (ds : List GameResult) : Nat := (allOfficialNames ds).toFinset.card

/-- `name_counts.most_common(10)`. -/
def topNames (ds : List GameResult) : List (String × Nat) :=
  (sortDesc (countsList (allOfficialNames ds))).take 10

/-! ### Random sample

`random.sample(all_officials, min(20, len(all_officials)))`, modelled as
selection without replacement driven by an arbitrary oracle of random
choices. -/

/-- Selection without replacement: at each step the oracle picks an index
into the remaining population. -/
def pySample (oracle : Nat → Nat) : List String → Nat → List String
  | _, 0 => []
  | pop, k + 1 =>
    if pop.isEmpty then []
    else
      let i := oracle k % pop.length
      pop.getD i "" :: pySample oracle (pop.eraseIdx i) k

/-- The sampling step of `check_officials.py`. -/
def sampleOfficials (ds : List GameResult) (oracle : Nat → Nat) : List String :=
  pySample oracle (allOfficialNames ds) (min 20 (allOfficialNames ds).length)

/-! ## `deep_check_officials.py` -/

/-- The hardcoded list of well-known schools. -/
def schoolsToCheckList : List String :=
  ["rolltide.com", "floridagators.com", "georgiadogs.com",
   "texaslonghorns.com", "ohiostatebuckeyes.com"]

/-- The inner loop with `break`: first record with the given domain and
`success` true. -/
def findSchool (ds : List GameResult) (s : String) : Option GameResult :=
  ds.find? (fun r => r.domain = s && r.success)

/-- What gets printed for one well-known school. -/
structure SchoolReport where
  domain : String
  opponent : String
  officials : List (String × String)
deriving DecidableEq, Repr

/-- The body of the well-known-school loop: `result['gameInfo']['opponent']`
is a direct subscript, raising when `gameInfo` is absent or null or has no
`opponent` key; `result.get('officials', {}).items()` raises when
`officials` is present but null. `none` models the raise. -/
def reportSchool (r : GameResult) : Option SchoolReport :=
  match r.gameInfo with
  | some (some gi) =>
    match giOpponent gi with
    | some opp =>
      (match r.officials.getD (some []) with
       | none => none
       | some m =>
         some ⟨r.domain, opp,
               m.filterMap (fun p =>
                 match p.2 with
                 | some n => if n = "" then none else some (p.1, n)
                 | none => none)⟩)
    | none => none
  | _ => none

/-- Runs the well-known-school display over a list of school domains. -/
def schoolsToCheckGo (ds : List GameResult) : List String → Option (List SchoolReport)
  | [] => some []
  | s :: rest =>
    match findSchool ds s with
    | none => schoolsToCheckGo ds rest
    | some r =>
      match reportSchool r with
      | none => none
      | some rep => (schoolsToCheckGo ds rest).map (fun l => rep :: l)

/-- The whole well-known-school display of `deep_check_officials.py`. -/
def schoolsToCheck (ds : List GameResult) : Option (List SchoolReport) :=
  schoolsToCheckGo ds schoolsToCheckList

/-- The `"position:name"` tokens of one officials dict (truthy names
only). -/
def crewTokens (m : List (String × Option String)) : List String :=
  m.filterMap (fun p =>
    match p.2 with
    | some n => if n = "" then none else some (p.1 ++ ":" ++ n)
    | none => none)

/-- Assignment into a Python dict modelled as an insertion-ordered
association list: an existing key keeps its position and gets the new
value, a new key goes to the back. -/
def dictInsert {β : Type} (k : String) (v : β) : List (String × β) → List (String × β)
  | [] => [(k, v)]
  | (k', v') :: rest =>
    if k' = k then (k', v) :: rest else (k', v') :: dictInsert k v rest

/-- One iteration of the `officials_by_school` loop. -/
def obsStep (acc : List (String × Finset String)) (r : GameResult) :
    List (String × Finset String) :=
  if r.success then
    match r.officials with
    | some (some m) =>
      if m.isEmpty then acc
      else
        let toks := crewTokens m
        if toks.isEmpty then acc else dictInsert r.domain toks.toFinset acc
    | _ => acc
  else acc

/-- `officials_by_school`: domain → set of `"position:name"` tokens, keys
in first-insertion order, a later record for the same domain overwriting
the stored set (only when its token list is non-empty). -/
def officialsBySchool (ds : List GameResult) : List (String × Finset String) :=
  ds.foldl obsStep []

/-- The double loop `for i ... for j in range(i+1, ...)`: for each entry,
pair it with every later entry holding an equal token set. -/
def pairsOf : List (String × Finset String) → List (String × String)
  | [] => []
  | (s, ts) :: rest =>
    (rest.filter (fun p => p.2 = ts)).map (fun p => (s, p.1)) ++ pairsOf rest

/-- `identical_crews`: the pairs of domains with identical officiating
crews, each unordered pair visited once. -/
def identicalCrews (ds : List GameResult) : List (String × String) :=
  pairsOf (officialsBySchool ds)

/-- `position_counts.most_common()`: count of truthy names per position,
sorted descending (same `Counter` model as the name statistics). -/
def positionCounts (ds : List GameResult) : List (String × Nat) :=
  sortDesc (countsList ((flatEntries ds).map (fun t => t.2.1)))

/-- `suspicious_keywords`. -/
def suspiciousKeywords : List String :=
  ["test", "example", "sample", "demo", "placeholder", "temp", "dummy"]

/-- The keyword loop over one truthy name: one appended triple per keyword
occurring in the lowercased name. -/
def keywordHits (d pos n : String) : List (String × String × String) :=
  (suspiciousKeywords.filter (fun k => strContains (pyLower n) k)).map
    (fun _ => (d, pos, n))

/-- The inner loop of the keyword scan over one officials dict. -/
def keywordScanOfficials (d : String) :
    List (String × Option String) → List (String × String × String)
  | [] => []
  | (pos, nm) :: rest =>
    (match nm with
     | some n => if n = "" then [] else keywordHits d pos n
     | none => []) ++ keywordScanOfficials d rest

/-- `found_suspicious`: the keyword scan of `deep_check_officials.py`,
with the same flattening guard as the other checks. -/
def keywordScan : List GameResult → List (String × String × String)
  | [] => []
  | r :: rs =>
    (if r.success then
       match r.officials with
       | some (some m) => if m.isEmpty then [] else keywordScanOfficials r.domain m
       | _ => []
     else []) ++ keywordScan rs

/-! ## `verify_matching_games.py` — the known-pair opponent lookup -/

/-- One iteration of the `school_games` loop: a successful record with a
truthy `gameInfo` stores its opponent (default `"Unknown"`) under its
domain. -/
def sgStep (acc : List (String × String)) (r : GameResult) : List (String × String) :=
  if r.success then
    match r.gameInfo with
    | some (some gi) =>
      if gi.isEmpty then acc
      else dictInsert r.domain ((giOpponent gi).getD "Unknown") acc
    | _ => acc
  else acc

/-- `school_games`: domain → recorded opponent. -/
def schoolGames (ds : List GameResult) : List (String × String) :=
  ds.foldl sgStep []

/-- `school_games.get(s, 'Not found')`. -/
def lookupGame (sg : List (String × String)) (s : String) : String :=
  ((sg.find? (fun p => p.1 = s)).map (·.2)).getD "Not found"

/-- The hardcoded `pairs_to_check`. -/
def pairsToCheck : List (String × String) :=
  [("rolltide.com", "ulmwarhawks.com"),
   ("floridagators.com", "gousfbulls.com"),
   ("lsusports.net", "latechsports.com"),
   ("mutigers.com", "kuathletics.com"),
   ("hawkeyesports.com", "cyclones.com"),
   ("uhcougars.com", "riceowls.com"),
   ("navysports.com", "uabsports.com"),
   ("troytrojans.com", "clemsontigers.com")]

/-- The opponent lookup printed for each known pair. -/
def knownPairReport (ds : List GameResult) : List (String × String × String × String) :=
  pairsToCheck.map (fun p =>
    (p.1, p.2, lookupGame (schoolGames ds) p.1, lookupGame (schoolGames ds) p.2))

/-! ## Dataset loading

Modelled from the spec: the file read and JSON parse happen in the Python
standard library, outside this repository's sources. The loader input is
abstracted to `none` (file missing), `some none` (file present but not
valid JSON) and `some (some j)` (parsed document `j`); the repository's own
`data['results']` subscript is the schema check. -/

/-- A parsed JSON document, as far as the loader inspects it. -/
inductive Json
  | null
  | str (s : String)
  | arr (elems : List Json)
  | obj (fields : List (String × Json))

/-- The loader's failure taxonomy from the specification. -/
inductive LoadError
  | parseError
  | schemaError
deriving DecidableEq, Repr

/-- First value stored under a key of a JSON object. -/
def jsonLookup (k : String) (fields : List (String × Json)) : Option Json :=
  (fields.find? (fun p => p.1 = k)).map (·.2)

/-- Modelled from the spec: `json.load` plus `data['results']`.  A missing
file or malformed JSON is a `parseError`; a document without a top-level
`results` key is a `schemaError`; otherwise the whole `results` value is
returned. -/
def loadDataset : Option (Option Json) → Except LoadError Json
  | none => .error .parseError
  | some none => .error .parseError
  | some (some (.obj fields)) =>
    match jsonLookup "results" fields with
    | some v => .ok v
    | none => .error .schemaError
  | some (some _) => .error .schemaError

/-! ## Unsuccessful records are invisible to every check -/

lemma noOfficials_filter_success (ds : List GameResult) :
    noOfficials (ds.filter (fun r => r.success)) = noOfficials ds := by
  induction ds with
  | nil => rfl
  | cons r rs ih =>
    by_cases h : r.success
    · simp only [List.filter_cons, h, if_pos, noOfficials, ih]
    · simp only [List.filter_cons, h, Bool.false_eq_true, if_false, noOfficials, ih]

lemma suspiciousNames_filter_success (ds : List GameResult) :
    suspiciousNames (ds.filter (fun r => r.success)) = suspiciousNames ds := by
  induction ds with
  | nil => rfl
  | cons r rs ih =>
    by_cases h : r.success
    · simp only [List.filter_cons, h, if_pos, suspiciousNames, ih]
    · simp only [List.filter_cons, h, Bool.false_eq_true, if_false, suspiciousNames, ih,
        List.nil_append]

lemma keywordScan_filter_success (ds : List GameResult) :
    keywordScan (ds.filter (fun r => r.success)) = keywordScan ds := by
  induction ds with
  | nil => rfl
  | cons r rs ih =>
    by_cases h : r.success
    · simp only [List.filter_cons, h, if_pos, keywordScan, ih]
    · simp only [List.filter_cons, h, Bool.false_eq_true, if_false, keywordScan, ih,
        List.nil_append]

lemma flatEntries_filter_success (ds : List GameResult) :
    flatEntries (ds.filter (fun r => r.success)) = flatEntries ds := by
  induction ds with
  | nil => rfl
  | cons r rs ih =>
    by_cases h : r.success
    · simp only [flatEntries, List.filter_cons, h, if_pos, List.flatMap_cons]
      simpa only [flatEntries] using congrArg (entryList r ++ ·) ih
    · simp only [flatEntries, List.filter_cons, h, Bool.false_eq_true, if_false,
        List.flatMap_cons] at ih ⊢
      rw [← ih]
      simp [entryList, h]

lemma officialsBySchool_filter_success (ds : List GameResult) :
    officialsBySchool (ds.filter (fun r => r.success)) = officialsBySchool ds := by
  have key : ∀ (l : List GameResult) (acc : List (String × Finset String)),
      (l.filter (fun r => r.success)).foldl obsStep acc = l.foldl obsStep acc := by
    intro l
    induction l with
    | nil => intro acc; rfl
    | cons r rs ih =>
      intro acc
      by_cases h : r.success
      · simp only [List.filter_cons, h, if_pos, List.foldl_cons, ih]
      · simp only [List.filter_cons, h, Bool.false_eq_true, if_false, List.foldl_cons, ih,
          obsStep]
  exact key ds []

lemma schoolGames_filter_success (ds : List GameResult) :
    schoolGames (ds.filter (fun r => r.success)) = schoolGames ds := by
  have key : ∀ (l : List GameResult) (acc : List (String × String)),
      (l.filter (fun r => r.success)).foldl sgStep acc = l.foldl sgStep acc := by
    intro l
    induction l with
    | nil => intro acc; rfl
    | cons r rs ih =>
      intro acc
      by_cases h : r.success
      · simp only [List.filter_cons, h, if_pos, List.foldl_cons, ih]
      · simp only [List.filter_cons, h, Bool.false_eq_true, if_false, List.foldl_cons, ih,
          sgStep]
  exact key ds []

/-- C4.  Removing every record with `success = false` from a dataset
changes the output of none of the checks: the "no officials" report, the
suspicious-name flags, the name statistics (total, distinct count, top
ten), the cross-school identical-crew pairs, the position frequencies, the
keyword scan and the known-pair opponent lookups are identical on the
filtered dataset — i.e. an unsuccessful record contributes nothing. -/
theorem success_false_contributes_nothing (ds : List GameResult) :
    noOfficials (ds.filter (fun r => r.success)) = noOfficials ds
  ∧ suspiciousNames (ds.filter (fun r => r.success)) = suspiciousNames ds
  ∧ nameTotal (ds.filter (fun r => r.success)) = nameTotal ds
  ∧ nameDistinct (ds.filter (fun r => r.success)) = nameDistinct ds
  ∧ topNames (ds.filter (fun r => r.success)) = topNames ds
  ∧ identicalCrews (ds.filter (fun r => r.success)) = identicalCrews ds
  ∧ positionCounts (ds.filter (fun r => r.success)) = positionCounts ds
  ∧ keywordScan (ds.filter (fun r => r.success)) = keywordScan ds
  ∧ knownPairReport (ds.filter (fun r => r.success)) = knownPairReport ds := by
  refine ⟨noOfficials_filter_success ds, suspiciousNames_filter_success ds, ?_, ?_, ?_, ?_, ?_,
    keywordScan_filter_success ds, ?_⟩
  · simp only [nameTotal, allOfficialNames, flatEntries_filter_success ds]
  · simp only [nameDistinct, allOfficialNames, flatEntries_filter_success ds]
  · simp only [topNames, allOfficialNames, flatEntries_filter_success ds]
  · simp only [identicalCrews, officialsBySchool_filter_success ds]
  · simp only [positionCounts, flatEntries_filter_success ds]
  · simp only [knownPairReport, schoolGames_filter_success ds]

/-! ## The "no officials extracted" check -/

lemma opponentOfNoOff_eq_none_iff (r : GameResult) :
    opponentOfNoOff r = none ↔ r.gameInfo = some none := by
  rcases h : r.gameInfo with _ | gi
  · simp [opponentOfNoOff, h]
  · rcases gi with _ | gi' <;> simp [opponentOfNoOff, h]

lemma noOfficials_cons (r : GameResult) (rs : List GameResult) :
    noOfficials (r :: rs) =
      if codeQualifies r then
        match opponentOfNoOff r with
        | none => none
        | some opp =>
          (noOfficials rs).map (fun l => ⟨r.domain, r.school.getD r.domain, opp⟩ :: l)
      else noOfficials rs := by
  simp only [noOfficials, codeQualifies]
  by_cases hs : r.success
  · simp only [hs, if_pos, Bool.true_and]
    rcases hm : r.officials.getD (some []) with _ | m
    · rfl
    · by_cases hc : m.countP (fun p => p.2.isSome) = 0
      · simp [hc]
      · simp [hc]
  · simp [hs]

/-- Amended C1.  Provided no qualifying record carries a present-but-null
`gameInfo` (on which the check raises instead of producing output), the
"no officials" output is exactly the successful records whose
`officials` — defaulting to the empty mapping when the field is *absent*,
and never qualifying when the field is present but null — is empty or
all-null, in input order, each reported with its domain, its school
falling back to the domain when absent, and its opponent falling back to
`"Unknown"` when absent; an unsuccessful record never appears. -/
theorem noOfficials_eq_filter (ds : List GameResult)
    (h : ∀ r ∈ ds, codeQualifies r = true → r.gameInfo ≠ some none) :
    noOfficials ds = some ((ds.filter codeQualifies).map codeEntry) := by
  induction ds with
  | nil => rfl
  | cons r rs ih =>
    have htail := ih (fun x hx => h x (List.mem_cons_of_mem _ hx))
    rw [noOfficials_cons, List.filter_cons]
    by_cases hq : codeQualifies r = true
    · have hgi : r.gameInfo ≠ some none := h r (List.mem_cons_self _ _) hq
      have hopp : opponentOfNoOff r ≠ none := by
        intro hc
        exact hgi ((opponentOfNoOff_eq_none_iff r).mp hc)
      rcases ho : opponentOfNoOff r with _ | opp
      · exact absurd ho hopp
      · have hce : codeEntry r = ⟨r.domain, r.school.getD r.domain, opp⟩ := by
          simp [codeEntry, ho]
        simp [hq, ho, htail, hce]
    · simp [hq, htail]

/-- Witness for `noOfficials_eq_filter` at a concrete two-record
dataset. -/
theorem noOfficials_eq_filter_witness :
    noOfficials
        [⟨"a.com", true, none, none, some (some [("referee", none)])⟩,
         ⟨"b.com", false, none, none, none⟩] =
      some [⟨"a.com", "a.com", "Unknown"⟩] := by
  have h := noOfficials_eq_filter
    [⟨"a.com", true, none, none, some (some [("referee", none)])⟩,
     ⟨"b.com", false, none, none, none⟩]
    (by decide)
  rw [h]
  decide

/-- Counterexample to C1 as stated: a successful record whose `officials`
field is present but null.  The claim's reading ("defaulting to empty when
the field is absent or null") makes it qualify and be reported, but the
code's `isinstance(officials, dict)` test skips it, so the actual output
is empty. -/
theorem noOfficials_null_default_counterexample :
    specQualifies ⟨"a.com", true, none, none, some none⟩ = true
    ∧ specNoOfficials [⟨"a.com", true, none, none, some none⟩] =
        [⟨"a.com", "a.com", "Unknown"⟩]
    ∧ noOfficials [⟨"a.com", true, none, none, some none⟩] = some [] := by
  decide

/-! ## Default substitution versus raising -/

lemma noOfficials_isSome_iff (ds : List GameResult) :
    (noOfficials ds).isSome = true ↔
      ∀ r ∈ ds, codeQualifies r = true → r.gameInfo ≠ some none := by
  induction ds with
  | nil => simp [noOfficials]
  | cons r rs ih =>
    rw [noOfficials_cons]
    by_cases hq : codeQualifies r = true
    · rcases ho : opponentOfNoOff r with _ | opp
      · have hgi : r.gameInfo = some none := (opponentOfNoOff_eq_none_iff r).mp ho
        simp [hq, ho, List.forall_mem_cons, hgi]
      · have hgi : r.gameInfo ≠ some none := by
          intro hc
          rw [(opponentOfNoOff_eq_none_iff r).mpr hc] at ho
          cases ho
        simp [hq, ho, List.forall_mem_cons, hgi, ih]
    · simp [hq, List.forall_mem_cons, ih]

lemma schoolsToCheckGo_isSome_iff (ds : List GameResult) (ss : List String) :
    (schoolsToCheckGo ds ss).isSome = true ↔
      ∀ s ∈ ss, ∀ r, findSchool ds s = some r → (reportSchool r).isSome = true := by
  induction ss with
  | nil => simp [schoolsToCheckGo]
  | cons s rest ih =>
    simp only [schoolsToCheckGo, List.forall_mem_cons]
    rcases hf : findSchool ds s with _ | r
    · simp [hf, ih]
    · rcases hrep : reportSchool r with _ | rep
      · simp only [hf, hrep]
        constructor
        · intro h
          simp at h
        · intro h
          have h1 := h.1 r rfl
          rw [hrep] at h1
          cases h1
      · simp only [hf, hrep]
        have hmap : (Option.map (fun l => rep :: l) (schoolsToCheckGo ds rest)).isSome
            = (schoolsToCheckGo ds rest).isSome := by
          cases schoolsToCheckGo ds rest <;> rfl
        rw [hmap, ih]
        constructor
        · intro h
          refine ⟨fun r' hr' => ?_, h⟩
          injection hr' with e
          rw [← e, hrep]
          rfl
        · intro h
          exact h.2

/-- Amended C3.  Fields read through `.get` (an absent `school`, an absent
`gameInfo` or an absent `officials`) are substituted with their defaults;
but the tolerance is not complete: the "no officials" check raises exactly
when some qualifying record's `gameInfo` is present but null, and the
well-known-school display raises exactly when the first successful record
of a listed school lacks a usable `gameInfo`/`opponent` or has a
present-but-null `officials` (its `gameInfo` subscripts are direct, with
no default). -/
theorem default_substitution_boundary (ds : List GameResult) :
    ((noOfficials ds).isSome = true ↔
      ∀ r ∈ ds, codeQualifies r = true → r.gameInfo ≠ some none)
    ∧ ((schoolsToCheck ds).isSome = true ↔
      ∀ s ∈ schoolsToCheckList, ∀ r, findSchool ds s = some r →
        (reportSchool r).isSome = true) :=
  ⟨noOfficials_isSome_iff ds, schoolsToCheckGo_isSome_iff ds schoolsToCheckList⟩

/-- Witness for `default_substitution_boundary` at a concrete dataset:
absent `school`, `gameInfo` and `officials` are all defaulted and the run
completes. -/
theorem default_substitution_boundary_witness :
    (noOfficials [⟨"a.com", true, none, none, none⟩]).isSome = true
    ∧ (schoolsToCheck [⟨"a.com", true, none, none, none⟩]).isSome = true :=
  ⟨(default_substitution_boundary [⟨"a.com", true, none, none, none⟩]).1.mpr (by decide),
   (default_substitution_boundary [⟨"a.com", true, none, none, none⟩]).2.mpr (by decide)⟩

/-- Counterexample to C3 as stated.  A successful, qualifying record with
a present-but-null `gameInfo` makes the "no officials" check raise
(`None.get('opponent', ...)` is an `AttributeError`), and a listed
well-known school whose record has `gameInfo` *absent* makes the
deep-check display raise (`result['gameInfo']` is a `KeyError`): neither
absence nor null is always substituted with a default. -/
theorem default_substitution_counterexample :
    noOfficials [⟨"a.com", true, none, some none, none⟩] = none
    ∧ schoolsToCheck [⟨"rolltide.com", true, none, none, none⟩] = none := by
  decide

/-! ## The suspicious-name check -/

lemma flagsOfOfficials_eq_flatMap (d : String) (m : List (String × Option String)) :
    flagsOfOfficials d m =
      (m.filterMap (fun p =>
        match p.2 with
        | some n => if n = "" then none else some (d, p.1, n)
        | none => none)).flatMap (fun t => entryFlags t.1 t.2.1 t.2.2) := by
  induction m with
  | nil => rfl
  | cons p rest ih =>
    rcases p with ⟨pos, nm⟩
    rcases nm with _ | n
    · simpa [flagsOfOfficials, List.filterMap_cons] using ih
    · by_cases hn : n = ""
      · simp [flagsOfOfficials, List.filterMap_cons, hn, ih]
      · simp [flagsOfOfficials, List.filterMap_cons, hn, ih]

lemma suspiciousNames_eq_flatMap (ds : List GameResult) :
    suspiciousNames ds = (flatEntries ds).flatMap (fun t => entryFlags t.1 t.2.1 t.2.2) := by
  induction ds with
  | nil => rfl
  | cons r rs ih =>
    simp only [suspiciousNames, flatEntries, List.flatMap_cons, List.flatMap_append]
    simp only [flatEntries] at ih
    rw [ih]
    congr 1
    by_cases hs : r.success
    · simp only [hs, if_pos, entryList]
      rcases ho : r.officials with _ | o
      · simp
      rcases o with _ | m
      · simp
      by_cases hm : m.isEmpty
      · simp [hm]
      · simp [hm, flagsOfOfficials_eq_flatMap]
    · simp [hs, entryList]

lemma reason_of_mem_entryFlags (d pos n : String) (f : Flag) (hf : f ∈ entryFlags d pos n) :
    (f.reason = .placeholder ∧ isPlaceholder f.name = true)
    ∨ (f.reason = .repetitive ∧ isRepetitive f.name = true)
    ∨ (f.reason = .numbers ∧ trailingDigitRe f.name = true) := by
  simp only [entryFlags, List.mem_append] at hf
  rcases hf with (hf | hf) | hf
  · by_cases h : isPlaceholder n = true
    · rw [if_pos h] at hf
      simp only [List.mem_singleton] at hf
      subst hf
      exact Or.inl ⟨rfl, h⟩
    · rw [if_neg h] at hf
      cases hf
  · by_cases h : isRepetitive n = true
    · rw [if_pos h] at hf
      simp only [List.mem_singleton] at hf
      subst hf
      exact Or.inr (Or.inl ⟨rfl, h⟩)
    · rw [if_neg h] at hf
      cases hf
  · by_cases h : trailingDigitRe n = true
    · rw [if_pos h] at hf
      simp only [List.mem_singleton] at hf
      subst hf
      exact Or.inr (Or.inr ⟨rfl, h⟩)
    · rw [if_neg h] at hf
      cases hf

/-- Amended C2.  A flattened official entry receives one flag per
satisfied predicate among: case-insensitive membership in the fixed
placeholder set, splitting into exactly two identical whitespace-separated
parts, and matching `re.search(r'\d+$', name)` — which accepts the digits
being followed by one final newline, slightly wider than "ends in one or
more decimal digits".  An entry may be flagged more than once but never
without one of the three reasons holding. -/
theorem suspicious_flags_amended (ds : List GameResult) :
    suspiciousNames ds = (flatEntries ds).flatMap (fun t => entryFlags t.1 t.2.1 t.2.2)
    ∧ ∀ f ∈ suspiciousNames ds,
        (f.reason = .placeholder ∧ isPlaceholder f.name = true)
        ∨ (f.reason = .repetitive ∧ isRepetitive f.name = true)
        ∨ (f.reason = .numbers ∧ trailingDigitRe f.name = true) := by
  refine ⟨suspiciousNames_eq_flatMap ds, ?_⟩
  intro f hf
  rw [suspiciousNames_eq_flatMap ds] at hf
  simp only [List.mem_flatMap] at hf
  obtain ⟨t, _, hmem⟩ := hf
  exact reason_of_mem_entryFlags _ _ _ _ hmem

/-- Witness for `suspicious_flags_amended` on a dataset with one
repetitive name. -/
theorem suspicious_flags_amended_witness :
    ((Flag.mk "a.com" "referee" "Test Test" Reason.repetitive).reason = Reason.placeholder
        ∧ isPlaceholder (Flag.mk "a.com" "referee" "Test Test" Reason.repetitive).name = true)
    ∨ ((Flag.mk "a.com" "referee" "Test Test" Reason.repetitive).reason = Reason.repetitive
        ∧ isRepetitive (Flag.mk "a.com" "referee" "Test Test" Reason.repetitive).name = true)
    ∨ ((Flag.mk "a.com" "referee" "Test Test" Reason.repetitive).reason = Reason.numbers
        ∧ trailingDigitRe (Flag.mk "a.com" "referee" "Test Test" Reason.repetitive).name = true) :=
  (suspicious_flags_amended
      [⟨"a.com", true, none, none, some (some [("referee", some "Test Test")])⟩]).2
    (Flag.mk "a.com" "referee" "Test Test" Reason.repetitive) (by decide)

/-- Counterexample to C2 as stated.  The name `"Ref 2\n"` does not end in
a decimal digit (it ends in a newline), is no placeholder, and is not
repetitive — yet the code flags it, because Python's `re.search(r'\d+$')`
also matches digits followed by one trailing newline. -/
theorem suspicious_flags_counterexample :
    suspiciousNames [⟨"a.com", true, none, none, some (some [("referee", some "Ref 2\n")])⟩]
      = [⟨"a.com", "referee", "Ref 2\n", Reason.numbers⟩]
    ∧ isPlaceholder "Ref 2\n" = false
    ∧ isRepetitive "Ref 2\n" = false
    ∧ specTrailingDigits "Ref 2\n" = false := by
  decide

/-! ## The keyword scan -/

lemma keywordScanOfficials_eq_flatMap (d : String) (m : List (String × Option String)) :
    keywordScanOfficials d m =
      (m.filterMap (fun p =>
        match p.2 with
        | some n => if n = "" then none else some (d, p.1, n)
        | none => none)).flatMap (fun t => keywordHits t.1 t.2.1 t.2.2) := by
  induction m with
  | nil => rfl
  | cons p rest ih =>
    rcases p with ⟨pos, nm⟩
    rcases nm with _ | n
    · simpa [keywordScanOfficials, List.filterMap_cons] using ih
    · by_cases hn : n = ""
      · simp [keywordScanOfficials, List.filterMap_cons, hn, ih]
      · simp [keywordScanOfficials, List.filterMap_cons, hn, ih]

/-- C7.  The keyword scan emits exactly one `(domain, position, name)`
triple for each pair of a flattened entry and a keyword of the fixed set
occurring case-insensitively as a substring of the name: an entry whose
name matches `k` keywords appears `k` times, one matching none appears
zero times. -/
theorem keyword_scan_per_keyword (ds : List GameResult) :
    keywordScan ds =
      (flatEntries ds).flatMap (fun t =>
        (suspiciousKeywords.filter (fun k => strContains (pyLower t.2.2) k)).map
          (fun _ => t)) := by
  induction ds with
  | nil => rfl
  | cons r rs ih =>
    simp only [keywordScan, flatEntries, List.flatMap_cons, List.flatMap_append]
    simp only [flatEntries] at ih
    rw [ih]
    congr 1
    by_cases hs : r.success
    · simp only [hs, if_pos, entryList]
      rcases ho : r.officials with _ | o
      · simp
      rcases o with _ | m
      · simp
      by_cases hm : m.isEmpty
      · simp [hm]
      · simp only [hm, Bool.false_eq_true, if_false]
        rw [keywordScanOfficials_eq_flatMap]
        rfl
    · simp [hs, entryList]

/-! ## Name statistics: `Counter.most_common` -/

lemma mem_insertDesc (x a : String × Nat) (l : List (String × Nat)) :
    a ∈ insertDesc x l ↔ a = x ∨ a ∈ l := by
  induction l with
  | nil => simp [insertDesc]
  | cons y ys ih =>
    by_cases hc : y.2 > x.2
    · simp only [insertDesc, hc, if_pos, List.mem_cons, ih]
      tauto
    · simp only [insertDesc, hc, if_false, List.mem_cons]

lemma insertDesc_pairwise (x : String × Nat) (l : List (String × Nat))
    (h : l.Pairwise (fun a b => b.2 ≤ a.2)) :
    (insertDesc x l).Pairwise (fun a b => b.2 ≤ a.2) := by
  induction l with
  | nil => simp [insertDesc]
  | cons y ys ih =>
    rw [List.pairwise_cons] at h
    by_cases hc : y.2 > x.2
    · simp only [insertDesc, hc, if_pos, List.pairwise_cons]
      refine ⟨fun a ha => ?_, ih h.2⟩
      rcases (mem_insertDesc x a ys).mp ha with rfl | ha'
      · exact Nat.le_of_lt hc
      · exact h.1 a ha'
    · simp only [insertDesc, hc, if_false, List.pairwise_cons]
      refine ⟨fun a ha => ?_, h⟩
      rcases List.mem_cons.mp ha with rfl | ha'
      · exact Nat.le_of_not_lt hc
      · exact Nat.le_trans (h.1 a ha') (Nat.le_of_not_lt hc)

lemma insertDesc_filter (x : String × Nat) (l : List (String × Nat)) (c : Nat) :
    (insertDesc x l).filter (fun p => p.2 = c) =
      if x.2 = c then x :: l.filter (fun p => p.2 = c)
      else l.filter (fun p => p.2 = c) := by
  induction l with
  | nil =>
    by_cases hxc : x.2 = c <;> simp [insertDesc, hxc]
  | cons y ys ih =>
    by_cases hc : y.2 > x.2
    · simp only [insertDesc, hc, if_pos]
      by_cases hyc : y.2 = c
      · have hxc : ¬x.2 = c := by omega
        simp [List.filter_cons, hyc, hxc, ih]
      · simp [List.filter_cons, hyc, ih]
    · simp only [insertDesc, hc, if_false]
      by_cases hxc : x.2 = c <;> simp [List.filter_cons, hxc]

lemma sortDesc_pairwise (l : List (String × Nat)) :
    (sortDesc l).Pairwise (fun a b => b.2 ≤ a.2) := by
  induction l with
  | nil => simp [sortDesc]
  | cons x xs ih => exact insertDesc_pairwise x _ ih

lemma sortDesc_filter (l : List (String × Nat)) (c : Nat) :
    (sortDesc l).filter (fun p => p.2 = c) = l.filter (fun p => p.2 = c) := by
  induction l with
  | nil => rfl
  | cons x xs ih =>
    simp only [sortDesc, insertDesc_filter, ih]
    by_cases hxc : x.2 = c <;> simp [List.filter_cons, hxc]

/-- C8.  The suspicious-name check's statistics report the length of the
flattened name list, the number of distinct names (case-sensitive), and a
top-ten list obtained from the per-name counts — taken in first-seen
order — by a stable descending sort: the result is sorted by descending
count and, within each count class, preserves first-seen order, ties thus
broken by first appearance in the flattened list. -/
theorem name_statistics_correct (ds : List GameResult) :
    nameTotal ds = (allOfficialNames ds).length
    ∧ nameDistinct ds = (allOfficialNames ds).dedup.length
    ∧ countsList (allOfficialNames ds)
        = (dedupFirst (allOfficialNames ds)).map
            (fun n => (n, (allOfficialNames ds).count n))
    ∧ topNames ds = (sortDesc (countsList (allOfficialNames ds))).take 10
    ∧ (sortDesc (countsList (allOfficialNames ds))).Pairwise (fun a b => b.2 ≤ a.2)
    ∧ ∀ c, (sortDesc (countsList (allOfficialNames ds))).filter (fun p => p.2 = c)
          = (countsList (allOfficialNames ds)).filter (fun p => p.2 = c) := by
  refine ⟨rfl, ?_, rfl, rfl, sortDesc_pairwise _, fun c => sortDesc_filter _ c⟩
  exact @List.card_toFinset String _ (allOfficialNames ds)

/-! ## One audit run, and what can differ between two runs -/

/-- Everything one run over the loaded dataset reports. -/
structure AuditReport where
  noOff : Option (List NoOffEntry)
  flags : List Flag
  total : Nat
  distinct : Nat
  top : List (String × Nat)
  crews : List (String × String)
  posFreq : List (String × Nat)
  kwScan : List (String × String × String)
  pairRep : List (String × String × String × String)
  sample : List String

/-- A full run of every check; the random-sample step is the only one
consuming the source of randomness. -/
def runAudit (ds : List GameResult) (oracle : Nat → Nat) : AuditReport :=
  ⟨noOfficials ds, suspiciousNames ds, nameTotal ds, nameDistinct ds, topNames ds,
   identicalCrews ds, positionCounts ds, keywordScan ds, knownPairReport ds,
   sampleOfficials ds oracle⟩

lemma pySample_length (oracle : Nat → Nat) (k : Nat) (pop : List String) :
    (pySample oracle pop k).length = min k pop.length := by
  induction k generalizing pop with
  | zero => simp [pySample]
  | succ k ih =>
    by_cases hp : pop.isEmpty
    · rw [List.isEmpty_iff] at hp
      simp [pySample, hp]
    · have hne : pop ≠ [] := by
        intro hc
        rw [hc] at hp
        exact hp rfl
      have hlen : 0 < pop.length := List.length_pos.mpr hne
      have hi : oracle k % pop.length < pop.length := Nat.mod_lt _ hlen
      have hp' : pop.isEmpty = false := by simpa using hp
      have herase : (pop.eraseIdx (oracle k % pop.length)).length = pop.length - 1 := by
        rw [List.length_eraseIdx]
        simp [hi]
      simp only [pySample, hp', Bool.false_eq_true, if_false, List.length_cons, ih, herase]
      omega

/-- C9.  Two runs of the audit over the same loaded dataset, with
arbitrary (possibly different) randomness, report identical results for
every check; only the random sample may differ, and even its size is
determined: the minimum of 20 and the number of flattened official-name
entries. -/
theorem audit_runs_agree (ds : List GameResult) (o o' : Nat → Nat) :
    (runAudit ds o).noOff = (runAudit ds o').noOff
    ∧ (runAudit ds o).flags = (runAudit ds o').flags
    ∧ (runAudit ds o).total = (runAudit ds o').total
    ∧ (runAudit ds o).distinct = (runAudit ds o').distinct
    ∧ (runAudit ds o).top = (runAudit ds o').top
    ∧ (runAudit ds o).crews = (runAudit ds o').crews
    ∧ (runAudit ds o).posFreq = (runAudit ds o').posFreq
    ∧ (runAudit ds o).kwScan = (runAudit ds o').kwScan
    ∧ (runAudit ds o).pairRep = (runAudit ds o').pairRep
    ∧ (runAudit ds o).sample.length = min 20 (allOfficialNames ds).length
    ∧ (runAudit ds o').sample.length = (runAudit ds o).sample.length := by
  have hlen : ∀ g : Nat → Nat,
      (runAudit ds g).sample.length = min 20 (allOfficialNames ds).length := by
    intro g
    show (sampleOfficials ds g).length = _
    rw [sampleOfficials, pySample_length]
    omega
  exact ⟨rfl, rfl, rfl, rfl, rfl, rfl, rfl, rfl, rfl, hlen o, (hlen o').trans (hlen o).symm⟩

/-! ## Empty-string official names -/

lemma entryList_name_ne_empty (r : GameResult) (t : String × String × String)
    (ht : t ∈ entryList r) : t.2.2 ≠ "" := by
  by_cases hs : r.success
  · rcases ho : r.officials with _ | o
    · simp [entryList, hs, ho] at ht
    rcases o with _ | m
    · simp [entryList, hs, ho] at ht
    by_cases hm : m.isEmpty
    · simp [entryList, hs, ho, hm] at ht
    · simp only [entryList, hs, ho, hm, if_pos, Bool.false_eq_true, if_false,
        List.mem_filterMap] at ht
      obtain ⟨p, _, hp⟩ := ht
      rcases hn : p.2 with _ | n
      · rw [hn] at hp; cases hp
      · simp only [hn] at hp
        by_cases hne : n = ""
        · rw [if_pos hne] at hp; cases hp
        · rw [if_neg hne] at hp
          injection hp with hp
          rw [← hp]
          exact hne
  · simp [entryList, hs] at ht

lemma filterMap_nil_of_all_empty {β : Type}
    (g : String × Option String → String → Option β)
    (m : List (String × Option String)) (hall : ∀ p ∈ m, p.2 = some "") :
    m.filterMap (fun p =>
      match p.2 with
      | some n => if n = "" then none else (g p n)
      | none => none) = [] := by
  rw [List.filterMap_eq_nil_iff]
  intro p hp
  rw [hall p hp]
  simp

/-- C10.  An official entry whose value is the empty string is excluded
from the flattened entry list exactly as a null is — it contributes
nothing to the suspicious-name flags, the crew token sets, the position
frequencies or the keyword scan — yet the "no officials" check counts it
as non-null, so a successful record all of whose official values are empty
strings is reported by no check at all. -/
theorem empty_string_invisible (ds : List GameResult) (r : GameResult)
    (hs : r.success = true) (m : List (String × Option String))
    (hm : r.officials = some (some m)) (hne : m ≠ [])
    (hall : ∀ p ∈ m, p.2 = some "") :
    ((flatEntries ds).all (fun t => !(t.2.2 = "")) = true)
    ∧ entryList r = []
    ∧ suspiciousNames [r] = []
    ∧ keywordScan [r] = []
    ∧ identicalCrews [r] = []
    ∧ positionCounts [r] = []
    ∧ noOfficials [r] = some [] := by
  have hmne : m.isEmpty = false := by
    rcases m with _ | ⟨p, m'⟩
    · exact absurd rfl hne
    · rfl
  have hfm : m.filterMap (fun p =>
      match p.2 with
      | some n => if n = "" then none else some (r.domain, p.1, n)
      | none => none) = [] :=
    filterMap_nil_of_all_empty (fun p n => some (r.domain, p.1, n)) m hall
  have hent : entryList r = [] := by
    simp only [entryList, hs, if_pos, hm, hmne, Bool.false_eq_true, if_false]
    exact hfm
  refine ⟨?_, hent, ?_, ?_, ?_, ?_, ?_⟩
  · rw [List.all_eq_true]
    intro t ht
    have : t.2.2 ≠ "" := by
      rw [flatEntries, List.mem_flatMap] at ht
      obtain ⟨r', _, ht'⟩ := ht
      exact entryList_name_ne_empty r' t ht'
    simpa using this
  · have : flagsOfOfficials r.domain m = [] := by
      rw [flagsOfOfficials_eq_flatMap, hfm]
      rfl
    simp [suspiciousNames, hs, hm, hmne, this]
  · have : keywordScanOfficials r.domain m = [] := by
      rw [keywordScanOfficials_eq_flatMap, hfm]
      rfl
    simp [keywordScan, hs, hm, hmne, this]
  · have htoks : crewTokens m = [] :=
      filterMap_nil_of_all_empty (fun p n => some (p.1 ++ ":" ++ n)) m hall
    have : officialsBySchool [r] = [] := by
      show obsStep [] r = []
      simp [obsStep, hs, hm, hmne, htoks]
    simp [identicalCrews, this, pairsOf]
  · have : flatEntries [r] = [] := by
      simp [flatEntries, hent]
    simp [positionCounts, this, countsList, dedupFirst, dedupFirstAux, sortDesc]
  · have hq : codeQualifies r = false := by
      obtain ⟨p, hp⟩ := List.exists_mem_of_ne_nil m hne
      have h1 : 0 < m.countP (fun p => p.2.isSome) :=
        List.countP_pos_iff.mpr ⟨p, hp, by rw [hall p hp]; rfl⟩
      have h2 : m.countP (fun p => p.2.isSome) ≠ 0 := by omega
      simp [codeQualifies, hm, h2]
    rw [noOfficials_cons, hq]
    rfl

/-- Witness for `empty_string_invisible` at a concrete one-record
dataset whose only official value is the empty string. -/
theorem empty_string_invisible_witness :
    ((flatEntries [⟨"x.com", true, none, none, some (some [("referee", some "")])⟩]).all
        (fun t => !(t.2.2 = "")) = true)
    ∧ entryList ⟨"x.com", true, none, none, some (some [("referee", some "")])⟩ = []
    ∧ suspiciousNames [⟨"x.com", true, none, none, some (some [("referee", some "")])⟩] = []
    ∧ keywordScan [⟨"x.com", true, none, none, some (some [("referee", some "")])⟩] = []
    ∧ identicalCrews [⟨"x.com", true, none, none, some (some [("referee", some "")])⟩] = []
    ∧ positionCounts [⟨"x.com", true, none, none, some (some [("referee", some "")])⟩] = []
    ∧ noOfficials [⟨"x.com", true, none, none, some (some [("referee", some "")])⟩]
        = some [] :=
  empty_string_invisible
    [⟨"x.com", true, none, none, some (some [("referee", some "")])⟩]
    ⟨"x.com", true, none, none, some (some [("referee", some "")])⟩
    rfl [("referee", some "")] rfl (by decide) (by decide)

/-! ## The dataset loader -/

lemma jsonLookup_eq_none_iff (fields : List (String × Json)) :
    jsonLookup "results" fields = none ↔ ∀ v, ("results", v) ∉ fields := by
  rw [jsonLookup, Option.map_eq_none', List.find?_eq_none]
  constructor
  · intro h v hv
    have := h _ hv
    simp at this
  · intro h x hx
    simp only [decide_eq_true_eq]
    intro hc
    apply h x.2
    have hx' : ("results", x.2) = x := by
      rcases x with ⟨x1, x2⟩
      simp only at hc ⊢
      rw [hc]
    rw [hx']
    exact hx

/-- C6.  Loading fails with a `parseError` exactly when the file is
missing or its contents are not valid JSON, and — for a parsed document —
with a `schemaError` exactly when no top-level `results` key exists; on
success the entire stored `results` value is returned unchanged, so no
partial dataset is ever produced. -/
theorem load_dataset_taxonomy :
    (∀ inp, loadDataset inp = Except.error LoadError.parseError ↔
        (inp = none ∨ inp = some none))
    ∧ (∀ fields, loadDataset (some (some (Json.obj fields)))
          = Except.error LoadError.schemaError ↔ ∀ v, ("results", v) ∉ fields)
    ∧ (∀ inp rs, loadDataset inp = Except.ok rs →
        ∃ fields, inp = some (some (Json.obj fields)) ∧ ("results", rs) ∈ fields) := by
  refine ⟨?_, ?_, ?_⟩
  · intro inp
    rcases inp with _ | inp
    · simp [loadDataset]
    rcases inp with _ | j
    · simp [loadDataset]
    · rcases j with _ | s | elems | fields
      · simp [loadDataset]
      · simp [loadDataset]
      · simp [loadDataset]
      · simp only [loadDataset]
        rcases h : jsonLookup "results" fields with _ | v <;> simp
  · intro fields
    rw [← jsonLookup_eq_none_iff]
    simp only [loadDataset]
    rcases h : jsonLookup "results" fields with _ | v <;> simp
  · intro inp rs h
    rcases inp with _ | inp
    · cases h
    rcases inp with _ | j
    · cases h
    rcases j with _ | s | elems | fields
    · cases h
    · cases h
    · cases h
    · simp only [loadDataset] at h
      rcases hl : jsonLookup "results" fields with _ | v
      · rw [hl] at h; cases h
      · rw [hl] at h
        injection h with h
        refine ⟨fields, rfl, ?_⟩
        rw [jsonLookup, Option.map_eq_some'] at hl
        obtain ⟨x, hx, hx2⟩ := hl
        have hmem := List.mem_of_find?_eq_some hx
        have hpred := List.find?_some hx
        simp only [decide_eq_true_eq] at hpred
        have : x = ("results", rs) := by
          rcases x with ⟨x1, x2⟩
          simp only at hpred hx2
          rw [hpred, hx2, h]
        rw [← this]
        exact hmem

/-- Witness for `load_dataset_taxonomy`: a missing file is a
`parseError`. -/
theorem load_dataset_taxonomy_witness :
    loadDataset none = Except.error LoadError.parseError :=
  (load_dataset_taxonomy.1 none).mpr (Or.inl rfl)

/-! ## Cross-school identical crews -/

/-- Looking a domain up in the `officials_by_school` dict. -/
def obsLookup (l : List (String × Finset String)) (s : String) : Option (Finset String) :=
  (l.find? (fun p => p.1 = s)).map (·.2)

lemma keys_dictInsert (k : String) (v : Finset String) (l : List (String × Finset String)) :
    (dictInsert k v l).map Prod.fst =
      if k ∈ l.map Prod.fst then l.map Prod.fst else l.map Prod.fst ++ [k] := by
  induction l with
  | nil => simp [dictInsert]
  | cons p rest ih =>
    rcases p with ⟨k', v'⟩
    by_cases hk : k' = k
    · subst hk
      simp [dictInsert]
    · simp only [dictInsert, hk, if_false, List.map_cons, ih]
      by_cases hm : k ∈ rest.map Prod.fst
      · simp [hm, Ne.symm hk]
      · simp [hm, Ne.symm hk]

lemma nodup_keys_dictInsert (k : String) (v : Finset String)
    (l : List (String × Finset String)) (h : (l.map Prod.fst).Nodup) :
    ((dictInsert k v l).map Prod.fst).Nodup := by
  rw [keys_dictInsert]
  by_cases hm : k ∈ l.map Prod.fst
  · simpa [hm] using h
  · simp [hm, List.nodup_append, h]

lemma officialsBySchool_keys_nodup (ds : List GameResult) :
    ((officialsBySchool ds).map Prod.fst).Nodup := by
  have key : ∀ (l : List GameResult) (acc : List (String × Finset String)),
      (acc.map Prod.fst).Nodup → ((l.foldl obsStep acc).map Prod.fst).Nodup := by
    intro l
    induction l with
    | nil => intro acc h; exact h
    | cons r rs ih =>
      intro acc h
      rw [List.foldl_cons]
      apply ih
      unfold obsStep
      by_cases hs : r.success
      · rw [if_pos hs]
        rcases r.officials with _ | o
        · exact h
        rcases o with _ | m
        · exact h
        by_cases hm : m.isEmpty
        · simpa [hm] using h
        · simp only [hm, Bool.false_eq_true, if_false]
          by_cases ht : (crewTokens m).isEmpty
          · simpa [ht] using h
          · simpa [ht] using nodup_keys_dictInsert r.domain (crewTokens m).toFinset acc h
      · rwa [if_neg hs]
  exact key ds [] (by simp)

lemma mem_pairsOf_cons (s A B : String) (ts : Finset String)
    (rest : List (String × Finset String)) :
    (A, B) ∈ pairsOf ((s, ts) :: rest) ↔
      (A = s ∧ ∃ p ∈ rest, p.2 = ts ∧ p.1 = B) ∨ (A, B) ∈ pairsOf rest := by
  simp only [pairsOf, List.mem_append, List.mem_map, List.mem_filter,
    decide_eq_true_eq, Prod.mk.injEq]
  constructor
  · rintro (⟨p, ⟨hp, hts⟩, hs, hb⟩ | h)
    · exact Or.inl ⟨hs.symm, p, hp, hts, hb⟩
    · exact Or.inr h
  · rintro (⟨hA, p, hp, hts, hb⟩ | h)
    · exact Or.inl ⟨p, ⟨hp, hts⟩, hA.symm, hb⟩
    · exact Or.inr h

lemma mem_keys_of_mem_pairsOf (l : List (String × Finset String)) (A B : String)
    (h : (A, B) ∈ pairsOf l) : A ∈ l.map Prod.fst ∧ B ∈ l.map Prod.fst := by
  induction l with
  | nil => cases h
  | cons p rest ih =>
    rcases p with ⟨s, ts⟩
    rcases (mem_pairsOf_cons s A B ts rest).mp h with ⟨hA, q, hq, _, hqB⟩ | h'
    · constructor
      · simp [hA]
      · simp only [List.map_cons, List.mem_cons]
        exact Or.inr (List.mem_map.mpr ⟨q, hq, hqB⟩)
    · have := ih h'
      simp only [List.map_cons, List.mem_cons]
      exact ⟨Or.inr this.1, Or.inr this.2⟩

lemma obsLookup_mem (l : List (String × Finset String)) (s : String) (ts : Finset String)
    (h : obsLookup l s = some ts) : (s, ts) ∈ l := by
  rw [obsLookup, Option.map_eq_some'] at h
  obtain ⟨x, hx, hx2⟩ := h
  have hmem := List.mem_of_find?_eq_some hx
  have hpred := List.find?_some hx
  simp only [decide_eq_true_eq] at hpred
  have : x = (s, ts) := by
    rcases x with ⟨x1, x2⟩
    simp only at hpred hx2
    rw [hpred, hx2]
  rwa [this] at hmem

lemma obsLookup_cons_self (k : String) (v : Finset String)
    (rest : List (String × Finset String)) :
    obsLookup ((k, v) :: rest) k = some v := by
  simp [obsLookup, List.find?_cons]

lemma obsLookup_cons_ne (k : String) (v : Finset String)
    (rest : List (String × Finset String)) (s : String) (h : ¬k = s) :
    obsLookup ((k, v) :: rest) s = obsLookup rest s := by
  simp [obsLookup, List.find?_cons, h]

lemma obsLookup_of_mem (l : List (String × Finset String)) (s : String) (ts : Finset String)
    (hnd : (l.map Prod.fst).Nodup) (h : (s, ts) ∈ l) : obsLookup l s = some ts := by
  induction l with
  | nil => cases h
  | cons p rest ih =>
    rcases p with ⟨k, v⟩
    rw [List.map_cons, List.nodup_cons] at hnd
    rcases List.mem_cons.mp h with heq | hmem
    · injection heq with h1 h2
      subst h1
      subst h2
      exact obsLookup_cons_self s ts rest
    · have hk : ¬k = s := by
        intro hc
        apply hnd.1
        rw [List.mem_map]
        exact ⟨(s, ts), hmem, by rw [hc]⟩
      rw [obsLookup_cons_ne k v rest s hk]
      exact ih hnd.2 hmem

lemma pairsOf_sound (l : List (String × Finset String)) (A B : String)
    (hnd : (l.map Prod.fst).Nodup) (h : (A, B) ∈ pairsOf l) :
    A ≠ B ∧ ∃ ts, obsLookup l A = some ts ∧ obsLookup l B = some ts := by
  induction l with
  | nil => cases h
  | cons p rest ih =>
    rcases p with ⟨s, ts⟩
    rw [List.map_cons, List.nodup_cons] at hnd
    rcases (mem_pairsOf_cons s A B ts rest).mp h with ⟨hA, q, hq, hqts, hqB⟩ | h'
    · subst hA
      have hBmem : B ∈ rest.map Prod.fst := by
        rw [List.mem_map]
        exact ⟨q, hq, hqB⟩
      have hAB : A ≠ B := by
        intro hc
        rw [hc] at hnd
        exact hnd.1 hBmem
      refine ⟨hAB, ts, obsLookup_cons_self A ts rest, ?_⟩
      have hq' : (B, ts) ∈ rest := by
        have hqe : q = (B, ts) := by
          rcases q with ⟨q1, q2⟩
          simp only at hqB hqts
          rw [hqB, hqts]
        rwa [hqe] at hq
      rw [obsLookup_cons_ne A ts rest B hAB]
      exact obsLookup_of_mem rest B ts hnd.2 hq'
    · obtain ⟨hAB, ts', hA', hB'⟩ := ih hnd.2 h'
      have hkeys := mem_keys_of_mem_pairsOf rest A B h'
      have hsA : ¬s = A := fun hc => hnd.1 (hc ▸ hkeys.1)
      have hsB : ¬s = B := fun hc => hnd.1 (hc ▸ hkeys.2)
      refine ⟨hAB, ts', ?_, ?_⟩
      · rw [obsLookup_cons_ne s ts rest A hsA]
        exact hA'
      · rw [obsLookup_cons_ne s ts rest B hsB]
        exact hB'

lemma pairsOf_complete (l : List (String × Finset String)) (A B : String)
    (tsA tsB : Finset String) (hnd : (l.map Prod.fst).Nodup) (hAB : A ≠ B)
    (hA : obsLookup l A = some tsA) (hB : obsLookup l B = some tsB) (hts : tsA = tsB) :
    (A, B) ∈ pairsOf l ∨ (B, A) ∈ pairsOf l := by
  induction l with
  | nil => cases hA
  | cons p rest ih =>
    rcases p with ⟨s, ts⟩
    rw [List.map_cons, List.nodup_cons] at hnd
    by_cases hsA : s = A
    · subst hsA
      rw [obsLookup_cons_self] at hA
      injection hA with htsA
      have hsB : ¬s = B := hAB
      rw [obsLookup_cons_ne s ts rest B hsB] at hB
      have hBmem : (B, tsB) ∈ rest := obsLookup_mem rest B tsB hB
      left
      rw [mem_pairsOf_cons]
      exact Or.inl ⟨rfl, (B, tsB), hBmem, (htsA.trans hts).symm, rfl⟩
    · by_cases hsB : s = B
      · subst hsB
        rw [obsLookup_cons_self] at hB
        injection hB with htsB
        have hsA' : ¬s = A := fun hc => hsA hc
        rw [obsLookup_cons_ne s ts rest A hsA'] at hA
        have hAmem : (A, tsA) ∈ rest := obsLookup_mem rest A tsA hA
        right
        rw [mem_pairsOf_cons]
        exact Or.inl ⟨rfl, (A, tsA), hAmem, hts.trans htsB.symm, rfl⟩
      · rw [obsLookup_cons_ne s ts rest A hsA] at hA
        rw [obsLookup_cons_ne s ts rest B hsB] at hB
        rcases ih hnd.2 hA hB with h | h
        · left
          rw [mem_pairsOf_cons]
          exact Or.inr h
        · right
          rw [mem_pairsOf_cons]
          exact Or.inr h

lemma pairsOf_antisymm (l : List (String × Finset String)) (A B : String)
    (hnd : (l.map Prod.fst).Nodup) (h : (A, B) ∈ pairsOf l) : (B, A) ∉ pairsOf l := by
  intro h'
  have hAB : A ≠ B := (pairsOf_sound l A B hnd h).1
  induction l with
  | nil => cases h
  | cons p rest ih =>
    rcases p with ⟨s, ts⟩
    rw [List.map_cons, List.nodup_cons] at hnd
    rcases (mem_pairsOf_cons s A B ts rest).mp h with ⟨hA, q, hq, _, hqB⟩ | h1
    · rcases (mem_pairsOf_cons s B A ts rest).mp h' with ⟨hB, _, _, _, _⟩ | h2
      · exact hAB (hA.trans hB.symm)
      · have := (mem_keys_of_mem_pairsOf rest B A h2).2
        rw [← hA] at hnd
        exact hnd.1 this
    · rcases (mem_pairsOf_cons s B A ts rest).mp h' with ⟨hB, q, hq, _, hqA⟩ | h2
      · have := (mem_keys_of_mem_pairsOf rest A B h1).2
        rw [← hB] at hnd
        exact hnd.1 this
      · exact ih hnd.2 h1 h2

lemma pairsOf_nodup (l : List (String × Finset String))
    (hnd : (l.map Prod.fst).Nodup) : (pairsOf l).Nodup := by
  induction l with
  | nil => exact List.nodup_nil
  | cons p rest ih =>
    rcases p with ⟨s, ts⟩
    rw [List.map_cons, List.nodup_cons] at hnd
    show (((rest.filter (fun p => p.2 = ts)).map (fun p => (s, p.1))) ++ pairsOf rest).Nodup
    rw [List.nodup_append]
    refine ⟨?_, ih hnd.2, ?_⟩
    · have hFkeys : ((rest.filter (fun p => p.2 = ts)).map Prod.fst).Nodup :=
        List.Nodup.sublist (List.Sublist.map Prod.fst (List.filter_sublist rest)) hnd.2
      have hF : (rest.filter (fun p => p.2 = ts)).Nodup := List.Nodup.of_map _ hFkeys
      apply List.Nodup.map_on ?_ hF
      intro x hx y hy hxy
      injection hxy with _ h2
      exact List.inj_on_of_nodup_map hFkeys hx hy h2
    · intro x hx hx'
      rcases x with ⟨x1, x2⟩
      have hx1 : x1 = s := by
        rw [List.mem_map] at hx
        obtain ⟨q, _, hq⟩ := hx
        injection hq with h1 _
        exact h1.symm
      have := (mem_keys_of_mem_pairsOf rest x1 x2 hx').1
      rw [hx1] at this
      exact hnd.1 this

/-- C5.  The cross-school check reports exactly the unordered pairs of
distinct domains of `officials_by_school` holding equal token sets, and
each such pair exactly once: every reported pair is distinct-domained with
equal stored sets (soundness), every equal pair of stored domains is
reported in one orientation (completeness), a reported `(A,B)` never also
appears as `(B,A)`, and the report list has no duplicates — all of this
for every record order of the dataset. -/
theorem identical_crews_correct (ds : List GameResult) :
    (∀ A B, (A, B) ∈ identicalCrews ds →
        A ≠ B ∧ ∃ ts, obsLookup (officialsBySchool ds) A = some ts
          ∧ obsLookup (officialsBySchool ds) B = some ts)
    ∧ (∀ A B tsA tsB, A ≠ B →
        obsLookup (officialsBySchool ds) A = some tsA →
        obsLookup (officialsBySchool ds) B = some tsB → tsA = tsB →
        (A, B) ∈ identicalCrews ds ∨ (B, A) ∈ identicalCrews ds)
    ∧ (∀ A B, (A, B) ∈ identicalCrews ds → (B, A) ∉ identicalCrews ds)
    ∧ (identicalCrews ds).Nodup := by
  have hnd := officialsBySchool_keys_nodup ds
  exact ⟨fun A B h => pairsOf_sound _ A B hnd h,
    fun A B tsA tsB hAB hA hB hts => pairsOf_complete _ A B tsA tsB hnd hAB hA hB hts,
    fun A B h => pairsOf_antisymm _ A B hnd h,
    pairsOf_nodup _ hnd⟩

/-- Witness for `identical_crews_correct`: two schools listing the same
crew in different key order are reported in one orientation only. -/
theorem identical_crews_correct_witness :
    ("b.com", "a.com") ∉ identicalCrews
      [⟨"a.com", true, none, none,
          some (some [("referee", some "Jane Roe"), ("umpire", some "Jim Poe")])⟩,
       ⟨"b.com", true, none, none,
          some (some [("umpire", some "Jim Poe"), ("referee", some "Jane Roe")])⟩] :=
  (identical_crews_correct
      [⟨"a.com", true, none, none,
          some (some [("referee", some "Jane Roe"), ("umpire", some "Jim Poe")])⟩,
       ⟨"b.com", true, none, none,
          some (some [("umpire", some "Jim Poe"), ("referee", some "Jane Roe")])⟩]).2.2.1
    "a.com" "b.com" (by decide)

end Officials
